import Mathlib

/-!
Verification of the instance-provisioning core of `ec2cluster/instance.go`:
the instance-type selection oracle (`instanceState`) and the launch state
machine (`instance.Go`), together with the capacity probe `ec2HasCapacity`.

Wall-clock time (`time.Now()` / `time.Since`) is modelled by an explicit
`now : Nat` parameter (seconds); durations are `Nat` seconds.  Prices
(`float64` in Go, used only for `== 0` and `<` comparisons on literal
catalog data) are modelled as `ℚ`.  Go map indexing with a missing key
yields the zero value; this is modelled by association lists with a
defaulting lookup.
-/

/-- Modelled from the spec: `reflow.Resources` (package `reflow` is not part
of the sources given); a triple (CPU, memory, disk) per spec §3. -/
structure Resources where
  Memory : Nat
  CPU : Nat
  Disk : Nat
deriving DecidableEq, Repr

/-- Modelled from the spec: `reflow.Resources.LessEqualAll`; the spec defines
the partial order as `a ≤ b` iff each component is ≤. -/
def Resources.LessEqualAll (a b : Resources) : Prop :=
  a.Memory ≤ b.Memory ∧ a.CPU ≤ b.CPU ∧ a.Disk ≤ b.Disk

instance (a b : Resources) : Decidable (a.LessEqualAll b) := by
  unfold Resources.LessEqualAll; infer_instance

/-- `instanceConfig` from `instance.go`.  The Go field `Type` is renamed
`typ` (`Type` is a Lean keyword); `Price` is the region → price map. -/
structure instanceConfig where
  typ : String
  EBSOptimized : Bool
  Resources : Resources
  Price : List (String × ℚ)
  SpotOk : Bool
  NVMe : Bool
deriving DecidableEq, Repr

/-- `candidate.Price[s.region]`: Go map indexing, zero value `0` when the
region is absent. -/
def instanceConfig.priceIn (c : instanceConfig) (region : String) : ℚ :=
  (c.Price.lookup region).getD 0

/-- `instanceState` from `instance.go`.  The `unavailable` map is an
association list whose `lookup` finds the most recent entry; a missing key
is the zero `time.Time`, modelled as time `0`. -/
structure instanceState where
  configs : List instanceConfig
  sleepTime : Nat
  region : String
  unavailable : List (String × Nat)
deriving DecidableEq, Repr

/-- The descending-memory comparator used by `newInstanceState`
(`sort.Slice` with `configs[j].Resources.Memory < configs[i].Resources.Memory`). -/
def memGE (a b : instanceConfig) : Bool :=
  decide (b.Resources.Memory ≤ a.Resources.Memory)

/-- `newInstanceState`: copies the configs and sorts them in decreasing
order of memory.  Go's unstable `sort.Slice` is modelled by `mergeSort` on
the same ordering: both produce a permutation of the input sorted by
descending memory. -/
def newInstanceState (configs : List instanceConfig) (sleep : Nat) (region : String) :
    instanceState :=
  { configs := configs.mergeSort memGE
    sleepTime := sleep
    region := region
    unavailable := [] }

/-- `time.Since(s.unavailable[typ]) < s.sleepTime`: the mark on `typ` is
still fresh (blocking) at time `now`. -/
def instanceState.fresh (s : instanceState) (now : Nat) (typ : String) : Prop :=
  now - (s.unavailable.lookup typ).getD 0 < s.sleepTime

instance (s : instanceState) (now : Nat) (typ : String) : Decidable (s.fresh now typ) := by
  unfold instanceState.fresh; infer_instance

/-- `Unavailable` marks the given instance config as busy at time `now`
(`s.unavailable[config.Type] = time.Now()`). -/
def instanceState.Unavailable (s : instanceState) (config : instanceConfig) (now : Nat) :
    instanceState :=
  { s with unavailable := (config.typ, now) :: s.unavailable }

/-- `Max` returns `s.configs[0]`; on an empty catalog the Go code panics
with an index-out-of-range, modelled here by `none`. -/
def instanceState.Max (s : instanceState) : Option instanceConfig :=
  s.configs.head?

/-- `MaxAvailable`: first config in descending-memory order that is not
fresh-unavailable and satisfies the spot constraint. -/
def instanceState.MaxAvailable (s : instanceState) (now : Nat) (spot : Bool) :
    Option instanceConfig :=
  s.configs.find? (fun config =>
    !(decide (s.fresh now config.typ)) && !(spot && !config.SpotOk))

/-- One step of the `MinAvailable` scan: skip fresh-unavailable candidates,
skip candidates with a zero regional price, and replace `best` when the
candidate satisfies the spot constraint, covers the demand, and is strictly
cheaper than the current `best`'s regional price. -/
def minStep (s : instanceState) (now : Nat) (need : Resources) (spot : Bool)
    (best candidate : instanceConfig) : instanceConfig :=
  if s.fresh now candidate.typ then best
  else if candidate.priceIn s.region = 0 then best
  else if (spot → candidate.SpotOk) ∧ need.LessEqualAll candidate.Resources ∧
      candidate.priceIn s.region < best.priceIn s.region then candidate
  else best

/-- `MinAvailable` from `instance.go`: start from the `MaxAvailable`
fallback and scan all configs with `minStep`. -/
def instanceState.MinAvailable (s : instanceState) (now : Nat) (need : Resources)
    (spot : Bool) : Option instanceConfig :=
  match s.MaxAvailable now spot with
  | none => none
  | some best => some (s.configs.foldl (minStep s now need spot) best)

/-- `Type` from `instance.go`: the named config unless its mark is fresh. -/
def instanceState.TypeQ (s : instanceState) (now : Nat) (typ : String) :
    Option instanceConfig :=
  if s.fresh now typ then none
  else s.configs.find? (fun config => config.typ == typ)

/-- The class of configs that `MinAvailable` may select over the fallback:
not fresh-unavailable, non-zero regional price, spot-eligible when
required, and covering the demand. -/
def inClass (s : instanceState) (now : Nat) (need : Resources) (spot : Bool)
    (c : instanceConfig) : Prop :=
  ¬ s.fresh now c.typ ∧ c.priceIn s.region ≠ 0 ∧ (spot → c.SpotOk) ∧
    need.LessEqualAll c.Resources

instance (s : instanceState) (now : Nat) (need : Resources) (spot : Bool)
    (c : instanceConfig) : Decidable (inClass s now need spot c) := by
  unfold inClass; infer_instance

/-- Exact characterization of the `MinAvailable` scan starting from
fallback `b` with result `r`: either no config in the class is strictly
cheaper than `b`'s regional price and `r = b`, or `r` is the first config
in iteration order achieving the minimal class price strictly below `b`'s
price (earlier configs in the class are strictly more expensive, later
ones at least as expensive). -/
def FoldSpec (s : instanceState) (now : Nat) (need : Resources) (spot : Bool)
    (l : List instanceConfig) (b r : instanceConfig) : Prop :=
  (r = b ∧ ∀ c ∈ l, inClass s now need spot c →
      b.priceIn s.region ≤ c.priceIn s.region)
  ∨ (∃ l1 l2, l = l1 ++ r :: l2 ∧ inClass s now need spot r
      ∧ r.priceIn s.region < b.priceIn s.region
      ∧ (∀ c ∈ l1, inClass s now need spot c →
          r.priceIn s.region < c.priceIn s.region)
      ∧ (∀ c ∈ l2, inClass s now need spot c →
          r.priceIn s.region ≤ c.priceIn s.region))

theorem minStep_eq (s : instanceState) (now : Nat) (need : Resources) (spot : Bool)
    (b c : instanceConfig) :
    (inClass s now need spot c ∧ c.priceIn s.region < b.priceIn s.region ∧
      minStep s now need spot b c = c)
    ∨ (¬ (inClass s now need spot c ∧ c.priceIn s.region < b.priceIn s.region) ∧
      minStep s now need spot b c = b) := by
  unfold minStep inClass
  split_ifs with h1 h2 h3
  · right; exact ⟨fun hh => hh.1.1 h1, rfl⟩
  · right; exact ⟨fun hh => hh.1.2.1 h2, rfl⟩
  · left; exact ⟨⟨h1, h2, h3.1, h3.2.1⟩, h3.2.2, rfl⟩
  · right; exact ⟨fun hh => h3 ⟨hh.1.2.2.1, hh.1.2.2.2, hh.2⟩, rfl⟩

theorem minFold_spec (s : instanceState) (now : Nat) (need : Resources) (spot : Bool) :
    ∀ (l : List instanceConfig) (b : instanceConfig),
      FoldSpec s now need spot l b (List.foldl (minStep s now need spot) b l)
  | [], _ => Or.inl ⟨rfl, by simp⟩
  | c :: t, b => by
    have hstep := minStep_eq s now need spot b c
    simp only [List.foldl_cons]
    rcases hstep with ⟨hc, hlt, heq⟩ | ⟨hn, heq⟩ <;> rw [heq]
    · have ih := minFold_spec s now need spot t c
      rcases ih with ⟨hr, hbound⟩ | ⟨l1, l2, hteq, hcl, hlt2, hb1, hb2⟩
      · right
        refine ⟨[], t, by simp [hr], by rw [hr]; exact hc, by rw [hr]; exact hlt,
          by simp, ?_⟩
        intro x hx hcx
        rw [hr]
        exact hbound x hx hcx
      · right
        refine ⟨c :: l1, l2, by rw [List.cons_append, ← hteq], hcl, lt_trans hlt2 hlt, ?_, hb2⟩
        intro x hx hcx
        rcases List.mem_cons.mp hx with rfl | hx'
        · exact hlt2
        · exact hb1 x hx' hcx
    · have ih := minFold_spec s now need spot t b
      rcases ih with ⟨hr, hbound⟩ | ⟨l1, l2, hteq, hcl, hlt2, hb1, hb2⟩
      · left
        refine ⟨hr, ?_⟩
        intro x hx hcx
        rcases List.mem_cons.mp hx with rfl | hx'
        · exact le_of_not_lt fun hh => hn ⟨hcx, hh⟩
        · exact hbound x hx' hcx
      · right
        refine ⟨c :: l1, l2, by rw [List.cons_append, ← hteq], hcl, hlt2, ?_, hb2⟩
        intro x hx hcx
        rcases List.mem_cons.mp hx with rfl | hx'
        · exact hlt2.trans_le (le_of_not_lt fun hh => hn ⟨hcx, hh⟩)
        · exact hb1 x hx' hcx

/-- If `MaxAvailable` returns a config, that config's mark is not fresh. -/
theorem MaxAvailable_not_fresh (s : instanceState) (now : Nat) (spot : Bool)
    (c : instanceConfig) (h : s.MaxAvailable now spot = some c) :
    ¬ s.fresh now c.typ := by
  intro hf
  have hp := List.find?_some h
  simp only [Bool.and_eq_true, Bool.not_eq_true', decide_eq_false_iff_not] at hp
  exact hp.1 hf

/-- If `MinAvailable` returns a config, that config's mark is not fresh. -/
theorem MinAvailable_not_fresh (s : instanceState) (now : Nat) (need : Resources)
    (spot : Bool) (c : instanceConfig) (h : s.MinAvailable now need spot = some c) :
    ¬ s.fresh now c.typ := by
  unfold instanceState.MinAvailable at h
  cases hb : s.MaxAvailable now spot with
  | none => rw [hb] at h; exact absurd h (by simp)
  | some b =>
    rw [hb] at h
    simp only [Option.some.injEq] at h
    rcases minFold_spec s now need spot s.configs b with ⟨hr, _⟩ | ⟨_, _, _, hcl, _⟩
    · rw [← h, hr]
      exact MaxAvailable_not_fresh s now spot b hb
    · rw [← h]
      exact hcl.1

/-- Claim C1 (amended): if `MinAvailable(d, s)` returns `c`, then the
`MaxAvailable(s)` fallback `b` exists and either `c` is the first config in
descending-memory iteration order attaining the minimal regional price among
configs that are not fresh-unavailable, have a non-zero regional price,
satisfy the demand and the spot constraint, *and are strictly cheaper than
the fallback's regional price*; or no config in that class is strictly
cheaper than the fallback's price and `c` is the fallback itself. -/
theorem MinAvailable_cheapest_or_fallback (s : instanceState) (now : Nat)
    (need : Resources) (spot : Bool) (c : instanceConfig)
    (h : s.MinAvailable now need spot = some c) :
    ∃ b, s.MaxAvailable now spot = some b ∧ FoldSpec s now need spot s.configs b c := by
  unfold instanceState.MinAvailable at h
  cases hb : s.MaxAvailable now spot with
  | none => rw [hb] at h; exact absurd h (by simp)
  | some b =>
    rw [hb] at h
    simp only [Option.some.injEq] at h
    exact ⟨b, rfl, h ▸ minFold_spec s now need spot s.configs b⟩

def cxA : instanceConfig := ⟨"a", false, ⟨10, 1, 0⟩, [], true, false⟩

def cxB : instanceConfig := ⟨"b", false, ⟨5, 4, 0⟩, [("r", 1)], true, false⟩

def cxSt : instanceState := ⟨[cxA, cxB], 0, "r", []⟩

def cxNeed : Resources := ⟨1, 2, 0⟩

/-- Claim C1 as stated is false: on a catalog where the biggest type `a`
has no regional price and does not satisfy the demand, while the smaller
type `b` has a price and satisfies it, `MinAvailable` still returns `a`
(the fallback), because every candidate is compared against the fallback's
absent price `0` and can never be strictly cheaper.  So the returned config
neither satisfies the demand nor is the satisfying class empty. -/
theorem MinAvailable_claimC1_counterexample :
    cxSt.MinAvailable 100 cxNeed false = some cxA ∧
    ¬ ((cxNeed.LessEqualAll cxA.Resources ∧ inClass cxSt 100 cxNeed false cxA ∧
          ∀ c' ∈ cxSt.configs, inClass cxSt 100 cxNeed false c' →
            cxA.priceIn cxSt.region ≤ c'.priceIn cxSt.region)
       ∨ ((∀ c' ∈ cxSt.configs, ¬ inClass cxSt 100 cxNeed false c')
          ∧ cxSt.MaxAvailable 100 false = some cxA)) := by
  decide

def cfgBig : instanceConfig := ⟨"big", false, ⟨64, 16, 0⟩, [("us-west-2", 10)], true, false⟩

def cfgMed : instanceConfig := ⟨"med", false, ⟨16, 8, 0⟩, [("us-west-2", 4)], true, false⟩

def cfgSmall : instanceConfig := ⟨"small", false, ⟨4, 2, 0⟩, [("us-west-2", 1)], true, false⟩

def st0 : instanceState := ⟨[cfgBig, cfgMed, cfgSmall], 120, "us-west-2", []⟩

def need0 : Resources := ⟨8, 4, 0⟩

theorem MinAvailable_cheapest_or_fallback_witness :
    st0.MinAvailable 10000 need0 false = some cfgMed ∧
    ∃ b, st0.MaxAvailable 10000 false = some b ∧
      FoldSpec st0 10000 need0 false st0.configs b cfgMed :=
  ⟨by decide, MinAvailable_cheapest_or_fallback st0 10000 need0 false cfgMed (by decide)⟩

/-- Claim C2 (amended): a config returned by `MinAvailable` either is
exactly the `MaxAvailable` fallback or has a non-zero regional price. -/
theorem MinAvailable_fallback_or_nonzero_price (s : instanceState) (now : Nat)
    (need : Resources) (spot : Bool) (c : instanceConfig)
    (h : s.MinAvailable now need spot = some c) :
    s.MaxAvailable now spot = some c ∨ c.priceIn s.region ≠ 0 := by
  unfold instanceState.MinAvailable at h
  cases hb : s.MaxAvailable now spot with
  | none => rw [hb] at h; exact absurd h (by simp)
  | some b =>
    rw [hb] at h
    simp only [Option.some.injEq] at h
    rcases minFold_spec s now need spot s.configs b with ⟨hr, _⟩ | ⟨_, _, _, hcl, _⟩
    · left; rw [← h, hr]
    · right; rw [← h]; exact hcl.2.1

theorem MinAvailable_fallback_or_nonzero_price_witness :
    st0.MinAvailable 10000 need0 false = some cfgMed ∧
    (st0.MaxAvailable 10000 false = some cfgMed ∨ cfgMed.priceIn st0.region ≠ 0) :=
  ⟨by decide, MinAvailable_fallback_or_nonzero_price st0 10000 need0 false cfgMed (by decide)⟩

def cx2X : instanceConfig := ⟨"x", false, ⟨1, 1, 0⟩, [], true, false⟩

def cx2St : instanceState := ⟨[cx2X], 0, "r", []⟩

/-- Claim C2 as stated is false: with a single config whose price map has
no entry for the region, `MinAvailable` returns that config (via the
`MaxAvailable` fallback) even though its regional price is absent/zero. -/
theorem MinAvailable_claimC2_counterexample :
    cx2St.MinAvailable 100 ⟨0, 0, 0⟩ false = some cx2X ∧
    cx2X.priceIn cx2St.region = 0 := by
  decide

theorem lookup_unavailable_self (s : instanceState) (config : instanceConfig) (T : Nat) :
    (s.Unavailable config T).unavailable.lookup config.typ = some T := by
  simp [instanceState.Unavailable, List.lookup]

theorem fresh_unavailable_self (s : instanceState) (config : instanceConfig)
    (T now : Nat) :
    (s.Unavailable config T).fresh now config.typ ↔ now - T < s.sleepTime := by
  unfold instanceState.fresh
  rw [lookup_unavailable_self]
  exact Iff.rfl

/-- Claim C3: after marking `config` unavailable at time `T`, any query at a
time `now` with `T ≤ now < T + sleepTime` cannot return a config with that
type name (for `MaxAvailable`, `MinAvailable` and `Type`), and at any time
`now' ≥ T + sleepTime` the mark is no longer fresh, so it no longer blocks
selection. -/
theorem unavailable_blocks_until_cooldown (s : instanceState) (config : instanceConfig)
    (T now now' : Nat) (need : Resources) (spot : Bool) (c₁ c₂ : instanceConfig)
    (hT : T ≤ now) (h1 : now < T + s.sleepTime) (h2 : T + s.sleepTime ≤ now') :
    ((s.Unavailable config T).MaxAvailable now spot = some c₁ → c₁.typ ≠ config.typ)
    ∧ ((s.Unavailable config T).MinAvailable now need spot = some c₂ →
        c₂.typ ≠ config.typ)
    ∧ (s.Unavailable config T).TypeQ now config.typ = none
    ∧ ¬ (s.Unavailable config T).fresh now' config.typ := by
  have hfr : (s.Unavailable config T).fresh now config.typ := by
    rw [fresh_unavailable_self]
    omega
  refine ⟨?_, ?_, ?_, ?_⟩
  · intro h hEq
    have hnf := MaxAvailable_not_fresh _ _ _ _ h
    rw [hEq] at hnf
    exact hnf hfr
  · intro h hEq
    have hnf := MinAvailable_not_fresh _ _ _ _ _ h
    rw [hEq] at hnf
    exact hnf hfr
  · unfold instanceState.TypeQ
    rw [if_pos hfr]
  · rw [fresh_unavailable_self]
    omega

def c3cfg : instanceConfig := ⟨"X", false, ⟨1, 1, 0⟩, [("r", 1)], true, false⟩

def c3St : instanceState := ⟨[c3cfg], 120, "r", []⟩

theorem unavailable_blocks_until_cooldown_witness :
    ((c3St.Unavailable c3cfg 1000).MaxAvailable 1060 false = some c3cfg →
      c3cfg.typ ≠ c3cfg.typ)
    ∧ ((c3St.Unavailable c3cfg 1000).MinAvailable 1060 ⟨0, 0, 0⟩ false = some c3cfg →
      c3cfg.typ ≠ c3cfg.typ)
    ∧ (c3St.Unavailable c3cfg 1000).TypeQ 1060 c3cfg.typ = none
    ∧ ¬ (c3St.Unavailable c3cfg 1000).fresh 1121 c3cfg.typ :=
  unavailable_blocks_until_cooldown c3St c3cfg 1000 1060 1121 ⟨0, 0, 0⟩ false c3cfg c3cfg
    (by decide) (by decide) (by decide)

theorem configs_mark_foldl (marks : List (instanceConfig × Nat)) :
    ∀ s : instanceState,
      (marks.foldl (fun s p => s.Unavailable p.1 p.2) s).configs = s.configs := by
  induction marks with
  | nil => intro s; rfl
  | cons p t ih =>
    intro s
    rw [List.foldl_cons, ih]
    rfl

/-- Claim C10: on the state built from an empty catalog, `Max` hits the
out-of-range access `configs[0]` (modelled as `none`, i.e. a panic in Go)
while `MaxAvailable`, `MinAvailable` and `Type` all return not-found; on a
non-empty catalog `Max` returns a config of maximal memory, and it is
unchanged by any sequence of `Unavailable` marks. -/
theorem Max_empty_none_nonempty_largest (sleep : Nat) (region : String)
    (cs : List instanceConfig) (now : Nat) (need : Resources) (spot : Bool)
    (t : String) (marks : List (instanceConfig × Nat)) (hcs : cs ≠ []) :
    (newInstanceState [] sleep region).Max = none
    ∧ (newInstanceState [] sleep region).MaxAvailable now spot = none
    ∧ (newInstanceState [] sleep region).MinAvailable now need spot = none
    ∧ (newInstanceState [] sleep region).TypeQ now t = none
    ∧ (∃ c, (newInstanceState cs sleep region).Max = some c
        ∧ ∀ c' ∈ cs, c'.Resources.Memory ≤ c.Resources.Memory)
    ∧ (marks.foldl (fun s p => s.Unavailable p.1 p.2)
        (newInstanceState cs sleep region)).Max
      = (newInstanceState cs sleep region).Max := by
  have hnil : (newInstanceState [] sleep region).configs = [] := by
    simp [newInstanceState]
  have hMaxAv : (newInstanceState [] sleep region).MaxAvailable now spot = none := by
    unfold instanceState.MaxAvailable
    rw [hnil]
    rfl
  refine ⟨?_, hMaxAv, ?_, ?_, ?_, ?_⟩
  · unfold instanceState.Max
    rw [hnil]
    rfl
  · unfold instanceState.MinAvailable
    rw [hMaxAv]
  · unfold instanceState.TypeQ
    rw [hnil]
    split <;> rfl
  · have hperm := List.mergeSort_perm cs memGE
    have htrans : ∀ a b c : instanceConfig, memGE a b → memGE b c → memGE a c := by
      intro a b c hab hbc
      simp only [memGE, decide_eq_true_eq] at hab hbc ⊢
      exact le_trans hbc hab
    have htotal : ∀ a b : instanceConfig, memGE a b || memGE b a := by
      intro a b
      simp only [memGE, Bool.or_eq_true, decide_eq_true_eq]
      exact Nat.le_total b.Resources.Memory a.Resources.Memory
    have hsort := List.sorted_mergeSort htrans htotal cs
    cases hms : cs.mergeSort memGE with
    | nil =>
      rw [hms] at hperm
      exact absurd hperm.symm.eq_nil hcs
    | cons chead ctail =>
      refine ⟨chead, ?_, ?_⟩
      · unfold instanceState.Max newInstanceState
        rw [hms]
        rfl
      · intro x hx
        have hx' : x ∈ cs.mergeSort memGE := List.mem_mergeSort.mpr hx
        rw [hms] at hx' hsort
        rcases List.mem_cons.mp hx' with rfl | hx''
        · exact le_refl _
        · have hle := (List.pairwise_cons.mp hsort).1 x hx''
          simpa [memGE] using hle
  · unfold instanceState.Max
    rw [configs_mark_foldl]

theorem Max_empty_none_nonempty_largest_witness :
    (newInstanceState [] 120 "r").Max = none
    ∧ (newInstanceState [] 120 "r").MaxAvailable 100 false = none
    ∧ (newInstanceState [] 120 "r").MinAvailable 100 ⟨0, 0, 0⟩ false = none
    ∧ (newInstanceState [] 120 "r").TypeQ 100 "x" = none
    ∧ (∃ c, (newInstanceState [c3cfg] 120 "r").Max = some c
        ∧ ∀ c' ∈ [c3cfg], c'.Resources.Memory ≤ c.Resources.Memory)
    ∧ (([(c3cfg, 5)] : List (instanceConfig × Nat)).foldl
        (fun s p => s.Unavailable p.1 p.2) (newInstanceState [c3cfg] 120 "r")).Max
      = (newInstanceState [c3cfg] 120 "r").Max :=
  Max_empty_none_nonempty_largest 120 "r" [c3cfg] 100 ⟨0, 0, 0⟩ false "x"
    [(c3cfg, 5)] (by simp)

/-- Modelled from the spec: the closed set of error kinds of the `errors`
package (§7 of the spec); `Other` stands for an unclassified error. -/
inductive ErrKind where
  | Other
  | Fatal
  | Unavailable
  | Temporary
  | Timeout
  | Cancelled
deriving DecidableEq, Repr

/-- An error value as seen by `instance.Go`: its classified kind (`Other`
when unclassified), the AWS SDK error code when the value is an
`awserr.Error`, and its message. -/
structure Err where
  kind : ErrKind
  awsCode : Option String
  msg : String
deriving DecidableEq, Repr

/-- Modelled from the spec: `errors.E(kind, err)` wraps an error with a
kind; the wrapper is no longer an `awserr.Error`, so the AWS code is
dropped for the purpose of the type assertion in `Go`. -/
def errorsE (k : ErrKind) (e : Err) : Err :=
  ⟨k, none, e.msg⟩

/-- Modelled from the spec: `ctx.Err()` after cancellation, classified as
kind `Cancelled` (spec §7). -/
def ctxError : Err :=
  ⟨ErrKind.Cancelled, none, "context canceled"⟩

/-- The AWS error codes that `Go` reclassifies as `Unavailable`. -/
def capacityCodes : List String :=
  ["InsufficientCapacity", "InsufficientInstanceCapacity", "InsufficientHostCapacity",
    "InsufficientReservedInstanceCapacity", "InstanceLimitExceeded"]

/-- The `awserr.Error` type-assertion-and-switch in `Go`: an error that is
an AWS error with a capacity code becomes `errors.E(errors.Unavailable, err)`. -/
def awsReclass (e : Err) : Err :=
  match e.awsCode with
  | some c => if capacityCodes.contains c then errorsE ErrKind.Unavailable e else e
  | none => e

/-- `errors.New("ec2 capacity is likely exhausted")` wrapped with
`errors.Unavailable` in state `stateCapacity`. -/
def capacityExhaustedErr : Err :=
  ⟨ErrKind.Unavailable, none, "ec2 capacity is likely exhausted"⟩

/-- The external world seen by one run of `instance.Go`: for each state,
the outcome of its k-th attempt (the cloud / worker calls are oracles),
plus the spot flag and the context-cancellation observations at each
iteration of the loop. -/
structure Env where
  spot : Bool
  cap : Nat → Bool × Option Err
  launch : Nat → Option Err
  tag : Nat → Option Err
  wait : Nat → Option Err
  describe : Nat → Option Err
  clientNew : Nat → Option Err
  offers : Nat → Option Err
  ctxDone : Nat → Bool

/-- `strings.HasSuffix`, modelled over the character lists of the two
strings (Lean's built-in `String.endsWith` is not kernel-reducible). -/
def hasSuffixM (s suffix : String) : Bool :=
  suffix.data.isSuffixOf s.data

def maxTries : Nat := 5

/-- The body of the `switch state` in `Go`, producing `i.err` for the
attempt with per-state retry index `n`.  States:
0 = stateCapacity, 1 = stateLaunch, 2 = stateTag, 3 = stateWait,
4 = stateDescribe, 5 = stateOffers.  State 0 is a no-op unless spot;
state 5 wraps a client-construction failure as `Fatal` and an offers
error whose message ends in "connection refused" as `Temporary`. -/
def bodyErr (env : Env) (s n : Nat) : Option Err :=
  match s with
  | 0 =>
    if env.spot then
      match env.cap n with
      | (_, some e) => some e
      | (ok, none) => if ok then none else some capacityExhaustedErr
    else none
  | 1 => env.launch n
  | 2 => env.tag n
  | 3 => env.wait n
  | 4 => env.describe n
  | 5 =>
    match env.clientNew n with
    | some e => some (errorsE ErrKind.Fatal e)
    | none =>
      match env.offers n with
      | some e =>
        if hasSuffixM e.msg "connection refused" then some (errorsE ErrKind.Temporary e)
        else some e
      | none => none
  | _ => none

/-- The mutable loop variables of `Go`: the current state, the retry
counter `n`, the delay `d` (in seconds), the last attempt's error, and the
log of backoff sleeps performed so far as (state, duration) pairs. -/
structure LoopSt where
  state : Nat
  n : Nat
  d : Nat
  err : Option Err
  sleeps : List (Nat × Nat)
deriving DecidableEq, Repr

/-- Either the loop continues with new loop variables, or `Go` returns
with a final error (`i.Err()`) and the recorded backoff sleeps. -/
inductive StepOut where
  | cont (ls : LoopSt)
  | stop (res : Option Err) (sleeps : List (Nat × Nat))
deriving DecidableEq, Repr

/-- One iteration of the `for state < stateDone && ctx.Err() == nil` loop
of `Go`, at global iteration index `i`.  Mirrors the source order: loop
condition; state body; on success reset `n`, `d` and advance; `break` when
`n == maxTries`; AWS capacity reclassification; immediate return on
`Fatal` or `Unavailable`; otherwise sleep `d`, increment `n`, double `d`.
On exit, `i.err = ctx.Err()` when no attempt error is pending. -/
def goIter (env : Env) (i : Nat) (ls : LoopSt) : StepOut :=
  if 6 ≤ ls.state ∨ env.ctxDone i then
    StepOut.stop
      (match ls.err with
       | some e => some e
       | none => if env.ctxDone i then some ctxError else none)
      ls.sleeps
  else
    match bodyErr env ls.state ls.n with
    | none => StepOut.cont ⟨ls.state + 1, 0, 5, none, ls.sleeps⟩
    | some e =>
      if ls.n = maxTries then StepOut.stop (some e) ls.sleeps
      else
        let e2 := awsReclass e
        if e2.kind = ErrKind.Fatal ∨ e2.kind = ErrKind.Unavailable then
          StepOut.stop (some e2) ls.sleeps
        else
          StepOut.cont ⟨ls.state, ls.n + 1, ls.d * 2, some e2,
            ls.sleeps ++ [(ls.state, ls.d)]⟩

/-- Loop variables at entry of `Go`: state `stateCapacity`, `n = 0`,
`d = 5` seconds. -/
def goInit : LoopSt :=
  ⟨0, 0, 5, none, []⟩

/-- The execution trace of `Go`: the loop state before iteration `k`, or
the final outcome if the loop has already exited. -/
def goTrace (env : Env) : Nat → StepOut
  | 0 => StepOut.cont goInit
  | k + 1 =>
    match goTrace env k with
    | StepOut.cont ls => goIter env k ls
    | StepOut.stop r sl => StepOut.stop r sl

/-- Once the trace has stopped, it stays stopped with the same outcome. -/
theorem goTrace_stop_absorb (env : Env) (k : Nat) (r : Option Err)
    (sl : List (Nat × Nat)) (h : goTrace env k = StepOut.stop r sl) :
    ∀ j, goTrace env (k + j) = StepOut.stop r sl := by
  intro j
  induction j with
  | zero => exact h
  | succ j ih =>
    show goTrace env (k + j + 1) = _
    unfold goTrace
    rw [ih]

/-- The result of the dry-run `RunInstancesWithContext` call inside
`ec2HasCapacity`: no error, an error value, or `context.DeadlineExceeded`
(which in Go is not an `awserr.Error`). -/
inductive RunCallRes where
  | success
  | failure (e : Err)
  | deadlineExceeded
deriving DecidableEq, Repr

/-- `ec2HasCapacity` from `instance.go`: a nil error is itself an error
("did not expect succesful response"); an `awserr.Error` with code
`DryRunOperation` means capacity is available; any other AWS error is
returned as the failure; `context.DeadlineExceeded` is a negative answer
without error; otherwise a context error or a fallback error is
returned.  `ctxErr` is the value of `ctx.Err()`. -/
def ec2HasCapacity (r : RunCallRes) (ctxErr : Option Err) : Bool × Option Err :=
  match r with
  | RunCallRes.success =>
    (false, some ⟨ErrKind.Other, none, "did not expect succesful response"⟩)
  | RunCallRes.failure e =>
    match e.awsCode with
    | some c => if c = "DryRunOperation" then (true, none) else (false, some e)
    | none =>
      match ctxErr with
      | some ce => (false, some ce)
      | none => (false, some ⟨ErrKind.Other, none, "expected awserr or context error"⟩)
  | RunCallRes.deadlineExceeded => (false, none)

/-- Claim C7: the capacity probe maps a `DryRunOperation` AWS error to
`(true, nil)`, any other AWS error to `(false, that error)`, a context
deadline expiry to `(false, nil)`, and an error-free dry-run response to an
error of its own. -/
theorem ec2HasCapacity_spec (e : Err) (c : String) (ctxE : Option Err)
    (hc : e.awsCode = some c) :
    (c = "DryRunOperation" → ec2HasCapacity (RunCallRes.failure e) ctxE = (true, none))
    ∧ (c ≠ "DryRunOperation" →
        ec2HasCapacity (RunCallRes.failure e) ctxE = (false, some e))
    ∧ ec2HasCapacity RunCallRes.deadlineExceeded ctxE = (false, none)
    ∧ (ec2HasCapacity RunCallRes.success ctxE).2.isSome = true := by
  refine ⟨?_, ?_, rfl, rfl⟩
  · intro h
    simp [ec2HasCapacity, hc, h]
  · intro h
    simp [ec2HasCapacity, hc, h]

def dryRunErr : Err := ⟨ErrKind.Other, some "DryRunOperation", "dry run ok"⟩

theorem ec2HasCapacity_spec_witness :
    ("DryRunOperation" = "DryRunOperation" →
      ec2HasCapacity (RunCallRes.failure dryRunErr) none = (true, none))
    ∧ ("DryRunOperation" ≠ "DryRunOperation" →
      ec2HasCapacity (RunCallRes.failure dryRunErr) none = (false, some dryRunErr))
    ∧ ec2HasCapacity RunCallRes.deadlineExceeded none = (false, none)
    ∧ (ec2HasCapacity RunCallRes.success none).2.isSome = true :=
  ec2HasCapacity_spec dryRunErr "DryRunOperation" none rfl

theorem goTrace_succ (env : Env) (k : Nat) :
    goTrace env (k + 1) = match goTrace env k with
      | StepOut.cont ls => goIter env k ls
      | StepOut.stop r sl => StepOut.stop r sl := rfl

/-- Claim C4 (amended): when an attempt fails with an AWS error carrying a
capacity code, `Go` returns immediately — no backoff sleep and no further
attempt of any state.  If the retry budget is not yet exhausted
(`n ≠ maxTries`), the error is first reclassified as kind `Unavailable`;
but when the failure happens on the attempt at `n = maxTries`, the loop
breaks *before* the reclassification and the error keeps its original
classification. -/
theorem go_capacity_error_returns (env : Env) (k : Nat) (ls : LoopSt) (e : Err)
    (c : String) (hct : goTrace env k = StepOut.cont ls) (hs : ls.state < 6)
    (hcd : env.ctxDone k = false) (hb : bodyErr env ls.state ls.n = some e)
    (hcode : e.awsCode = some c) (hcap : c ∈ capacityCodes) :
    ((ls.n ≠ maxTries → goIter env k ls =
        StepOut.stop (some (errorsE ErrKind.Unavailable e)) ls.sleeps)
      ∧ (ls.n = maxTries → goIter env k ls = StepOut.stop (some e) ls.sleeps))
    ∧ ∀ j, goTrace env (k + 1 + j) = goTrace env (k + 1) := by
  have hnot : ¬ (6 ≤ ls.state ∨ env.ctxDone k = true) := by
    rintro (h6 | hdone)
    · omega
    · simp [hcd] at hdone
  have hmem : capacityCodes.contains c = true := List.elem_eq_true_of_mem hcap
  have hreclass : awsReclass e = errorsE ErrKind.Unavailable e := by
    simp only [awsReclass, hcode]
    rw [if_pos hmem]
  have hiterEq : goIter env k ls =
      if ls.n = maxTries then StepOut.stop (some e) ls.sleeps
      else StepOut.stop (some (errorsE ErrKind.Unavailable e)) ls.sleeps := by
    simp only [goIter, hb]
    rw [if_neg hnot]
    by_cases hn : ls.n = maxTries
    · rw [if_pos hn, if_pos hn]
    · have hk : (errorsE ErrKind.Unavailable e).kind = ErrKind.Fatal ∨
          (errorsE ErrKind.Unavailable e).kind = ErrKind.Unavailable := Or.inr rfl
      rw [if_neg hn, if_neg hn, hreclass, if_pos hk]
  refine ⟨⟨fun hn => by rw [hiterEq, if_neg hn], fun hn => by rw [hiterEq, if_pos hn]⟩, ?_⟩
  intro j
  have h1 : goTrace env (k + 1) = goIter env k ls := by
    rw [goTrace_succ, hct]
  by_cases hn : ls.n = maxTries
  · rw [goTrace_stop_absorb env (k + 1) (some e) ls.sleeps
      (by rw [h1, hiterEq, if_pos hn]) j, h1, hiterEq, if_pos hn]
  · rw [goTrace_stop_absorb env (k + 1) (some (errorsE ErrKind.Unavailable e)) ls.sleeps
      (by rw [h1, hiterEq, if_neg hn]) j, h1, hiterEq, if_neg hn]

def plainErr : Err := ⟨ErrKind.Other, none, "transient failure"⟩

def capErr : Err := ⟨ErrKind.Other, some "InsufficientInstanceCapacity", "capacity"⟩

def envC4 : Env :=
  ⟨false, fun _ => (true, none),
    fun n => if n < 5 then some plainErr else some capErr,
    fun _ => none, fun _ => none, fun _ => none, fun _ => none, fun _ => none,
    fun _ => false⟩

/-- Claim C4 as stated is false: when the AWS capacity error arrives on the
attempt at which the retry counter has already reached `maxTries`, the loop
breaks before the reclassification switch, so `Go` returns the error with
its original (non-`Unavailable`) classification. -/
theorem go_claimC4_counterexample :
    goTrace envC4 7 = StepOut.stop (some capErr)
      [(1, 5), (1, 10), (1, 20), (1, 40), (1, 80)]
    ∧ capErr.awsCode = some "InsufficientInstanceCapacity"
    ∧ capErr.kind ≠ ErrKind.Unavailable := by
  decide

def lsC4 : LoopSt := ⟨1, 5, 160, some plainErr, [(1, 5), (1, 10), (1, 20), (1, 40), (1, 80)]⟩

theorem go_capacity_error_returns_witness :
    ((lsC4.n ≠ maxTries → goIter envC4 6 lsC4 =
        StepOut.stop (some (errorsE ErrKind.Unavailable capErr)) lsC4.sleeps)
      ∧ (lsC4.n = maxTries → goIter envC4 6 lsC4 = StepOut.stop (some capErr) lsC4.sleeps))
    ∧ ∀ j, goTrace envC4 (6 + 1 + j) = goTrace envC4 (6 + 1) :=
  go_capacity_error_returns envC4 6 lsC4 capErr "InsufficientInstanceCapacity"
    (by decide) (by decide) (by decide) (by decide) (by decide) (by decide)

/-- Claim C5 (amended): cancellation is observed at the start of each loop
iteration (each state boundary); once observed, `Go` returns immediately —
no state body runs and no further backoff sleep is recorded — and the error
exposed by `Err()` is the last attempt's classified error when one is
pending, else the context's error of kind `Cancelled`. -/
theorem go_cancellation_stops (env : Env) (k : Nat) (ls : LoopSt)
    (hct : goTrace env k = StepOut.cont ls) (hdone : env.ctxDone k = true) :
    goIter env k ls = StepOut.stop (some (ls.err.getD ctxError)) ls.sleeps
    ∧ ctxError.kind = ErrKind.Cancelled
    ∧ ∀ j, goTrace env (k + 1 + j) = goTrace env (k + 1) := by
  have h1 : goIter env k ls = StepOut.stop (some (ls.err.getD ctxError)) ls.sleeps := by
    simp only [goIter]
    rw [if_pos (Or.inr hdone)]
    cases he : ls.err with
    | none => rw [hdone]; rfl
    | some e2 => rfl
  refine ⟨h1, rfl, ?_⟩
  intro j
  have h2 : goTrace env (k + 1) = StepOut.stop (some (ls.err.getD ctxError)) ls.sleeps := by
    rw [goTrace_succ, hct]
    exact h1
  rw [goTrace_stop_absorb env (k + 1) _ _ h2 j, h2]

def tempErr : Err := ⟨ErrKind.Temporary, none, "temporary glitch"⟩

def envC5 : Env :=
  ⟨true, fun _ => (true, some tempErr), fun _ => none, fun _ => none, fun _ => none,
    fun _ => none, fun _ => none, fun _ => none, fun i => decide (1 ≤ i)⟩

/-- Claim C5 as stated is false: the context is cancelled while the first
attempt is failing, yet the error exposed by `Err()` is that attempt's
`Temporary` error, not the context's `Cancelled` error, because `Go` only
overwrites `i.err` with `ctx.Err()` when no attempt error is pending. -/
theorem go_claimC5_counterexample :
    goTrace envC5 2 = StepOut.stop (some tempErr) [(0, 5)]
    ∧ envC5.ctxDone 1 = true
    ∧ tempErr.kind ≠ ErrKind.Cancelled := by
  decide

def lsC5 : LoopSt := ⟨0, 1, 10, some tempErr, [(0, 5)]⟩

theorem go_cancellation_stops_witness :
    goIter envC5 1 lsC5 = StepOut.stop (some (lsC5.err.getD ctxError)) lsC5.sleeps
    ∧ ctxError.kind = ErrKind.Cancelled
    ∧ ∀ j, goTrace envC5 (1 + 1 + j) = goTrace envC5 (1 + 1) :=
  go_cancellation_stops envC5 1 lsC5 (by decide) (by decide)

def refusedErr : Err := ⟨ErrKind.Other, none, "dial tcp 10.0.0.1:9000: connection refused"⟩

def envC8 : Env :=
  ⟨false, fun _ => (true, none), fun _ => none, fun _ => none, fun _ => none,
    fun _ => none, fun _ => none, fun n => if n < 3 then some refusedErr else none,
    fun _ => false⟩

/-- Claim C8 (amended): in state `stateOffers` an offers error whose
message ends in "connection refused" is reclassified as kind `Temporary`
and, while the retry counter has not yet reached `maxTries`, silently
retried (the loop stays in the same state after recording one backoff
sleep); in the concrete run where the endpoint refuses three times and
then succeeds, the overall result is success with no error surfaced. -/
theorem go_connection_refused_retry (env : Env) (k : Nat) (ls : LoopSt) (e : Err)
    (hcd : env.ctxDone k = false) (hst : ls.state = 5)
    (hnew : env.clientNew ls.n = none) (hoff : env.offers ls.n = some e)
    (hsuf : hasSuffixM e.msg "connection refused" = true) (hn : ls.n ≠ maxTries) :
    goIter env k ls = StepOut.cont
      ⟨ls.state, ls.n + 1, ls.d * 2, some (errorsE ErrKind.Temporary e),
        ls.sleeps ++ [(ls.state, ls.d)]⟩
    ∧ (errorsE ErrKind.Temporary e).kind = ErrKind.Temporary
    ∧ goTrace envC8 10 = StepOut.stop none [(5, 5), (5, 10), (5, 20)] := by
  have hnot : ¬ (6 ≤ ls.state ∨ env.ctxDone k = true) := by
    rintro (h6 | hd2)
    · omega
    · simp [hcd] at hd2
  have hbody : bodyErr env ls.state ls.n = some (errorsE ErrKind.Temporary e) := by
    rw [hst]
    simp only [bodyErr, hnew, hoff]
    rw [if_pos hsuf]
  have hk : ¬ ((awsReclass (errorsE ErrKind.Temporary e)).kind = ErrKind.Fatal ∨
      (awsReclass (errorsE ErrKind.Temporary e)).kind = ErrKind.Unavailable) := by
    rintro (hh | hh) <;> exact absurd hh (by simp [awsReclass, errorsE])
  refine ⟨?_, rfl, by decide⟩
  simp only [goIter, hbody]
  rw [if_neg hnot, if_neg hn, if_neg hk]
  rfl

def envC8x : Env :=
  ⟨false, fun _ => (true, none), fun _ => none, fun _ => none, fun _ => none,
    fun _ => none, fun _ => none, fun _ => some refusedErr, fun _ => false⟩

/-- Claim C8 as stated is false in one corner: when the offers endpoint
keeps refusing, the sixth consecutive "connection refused" error (arriving
with the retry counter at `maxTries`) is not retried — it is surfaced as
the launcher's final result. -/
theorem go_claimC8_counterexample :
    goTrace envC8x 11 = StepOut.stop (some (errorsE ErrKind.Temporary refusedErr))
      [(5, 5), (5, 10), (5, 20), (5, 40), (5, 80)]
    ∧ hasSuffixM refusedErr.msg "connection refused" = true := by
  decide

def lsC8 : LoopSt := ⟨5, 0, 5, none, []⟩

theorem go_connection_refused_retry_witness :
    goIter envC8 5 lsC8 = StepOut.cont
      ⟨lsC8.state, lsC8.n + 1, lsC8.d * 2, some (errorsE ErrKind.Temporary refusedErr),
        lsC8.sleeps ++ [(lsC8.state, lsC8.d)]⟩
    ∧ (errorsE ErrKind.Temporary refusedErr).kind = ErrKind.Temporary
    ∧ goTrace envC8 10 = StepOut.stop none [(5, 5), (5, 10), (5, 20)] :=
  go_connection_refused_retry envC8 5 lsC8 refusedErr (by decide) rfl rfl (by decide)
    (by decide) (by decide)

/-- A single loop iteration that continues either keeps the state or
advances it by exactly one. -/
theorem goIter_cont_state (env : Env) (i : Nat) (ls ls' : LoopSt)
    (h : goIter env i ls = StepOut.cont ls') :
    ls'.state = ls.state ∨ ls'.state = ls.state + 1 := by
  by_cases hc : 6 ≤ ls.state ∨ env.ctxDone i = true
  · simp only [goIter] at h
    rw [if_pos hc] at h
    exact absurd h (by simp)
  · simp only [goIter] at h
    rw [if_neg hc] at h
    cases hbody : bodyErr env ls.state ls.n with
    | none =>
      rw [hbody] at h
      simp only [] at h
      injection h with h2
      right
      rw [← h2]
    | some e =>
      rw [hbody] at h
      simp only [] at h
      by_cases hn : ls.n = maxTries
      · rw [if_pos hn] at h
        exact absurd h (by simp)
      · rw [if_neg hn] at h
        by_cases hk : (awsReclass e).kind = ErrKind.Fatal ∨
            (awsReclass e).kind = ErrKind.Unavailable
        · rw [if_pos hk] at h
          exact absurd h (by simp)
        · rw [if_neg hk] at h
          injection h with h2
          left
          rw [← h2]

/-- Along a trace, the state component never decreases. -/
theorem goTrace_state_mono (env : Env) :
    ∀ (j k : Nat) (ls ls' : LoopSt), goTrace env k = StepOut.cont ls →
      goTrace env (k + j) = StepOut.cont ls' → ls.state ≤ ls'.state := by
  intro j
  induction j with
  | zero =>
    intro k ls ls' h1 h2
    rw [Nat.add_zero, h1] at h2
    injection h2 with h3
    rw [h3]
  | succ j ih =>
    intro k ls ls' h1 h2
    rw [← Nat.add_assoc, goTrace_succ] at h2
    cases hmid : goTrace env (k + j) with
    | stop r sl =>
      rw [hmid] at h2
      exact absurd h2 (by simp)
    | cont lsm =>
      rw [hmid] at h2
      have hstep := goIter_cont_state env (k + j) lsm ls' h2
      have hmono := ih k ls lsm h1 hmid
      rcases hstep with he | he <;> omega

/-- Claim C9: within one run of `Go`, each loop iteration either stays in
the current state (a retry) or advances to the immediately following state,
and along the whole trace the state never decreases — a state once left is
never revisited. -/
theorem go_state_forward (env : Env) (k j : Nat) (ls ls' : LoopSt) :
    (goIter env k ls = StepOut.cont ls' →
      ls'.state = ls.state ∨ ls'.state = ls.state + 1)
    ∧ (goTrace env k = StepOut.cont ls → goTrace env (k + j) = StepOut.cont ls' →
      ls.state ≤ ls'.state) :=
  ⟨goIter_cont_state env k ls ls', goTrace_state_mono env j k ls ls'⟩

def lsC4a : LoopSt := ⟨1, 0, 5, none, []⟩

theorem go_state_forward_witness :
    (lsC4a.state = goInit.state ∨ lsC4a.state = goInit.state + 1)
    ∧ goInit.state ≤ lsC4.state :=
  ⟨(go_state_forward envC4 0 6 goInit lsC4a).1 (by decide),
    (go_state_forward envC4 0 6 goInit lsC4).2 (by decide) (by decide)⟩

/-- The durations of the backoff sleeps recorded for state `s`, in order. -/
def stateSleeps (l : List (Nat × Nat)) (s : Nat) : List Nat :=
  (l.filter (fun p => p.1 == s)).map (fun p => p.2)

theorem stateSleeps_append (l1 l2 : List (Nat × Nat)) (s : Nat) :
    stateSleeps (l1 ++ l2) s = stateSleeps l1 s ++ stateSleeps l2 s := by
  simp [stateSleeps, List.filter_append]

theorem stateSleeps_single_eq (a x : Nat) :
    stateSleeps [(a, x)] a = [x] := by
  simp [stateSleeps]

theorem stateSleeps_single_ne (a x s : Nat) (h : a ≠ s) :
    stateSleeps [(a, x)] s = [] := by
  simp [stateSleeps, h]

theorem stateSleeps_none (l : List (Nat × Nat)) (s : Nat)
    (h : ∀ p ∈ l, p.1 ≠ s) : stateSleeps l s = [] := by
  have hf : l.filter (fun p => p.1 == s) = [] := by
    rw [List.filter_eq_nil_iff]
    intro p hp
    simp only [beq_iff_eq]
    exact h p hp
  simp [stateSleeps, hf]

/-- The retry/backoff invariant of the `Go` loop: the delay is `5 · 2^n`,
the counter never exceeds `maxTries`, sleeps were only recorded for states
at or before the current one, the current state has recorded exactly the
sleeps `5·2^0, …, 5·2^(n-1)`, and every state's recorded sleeps are
`5·2^0, …, 5·2^(m-1)` for some `m ≤ maxTries`. -/
def BackoffInv (ls : LoopSt) : Prop :=
  ls.d = 5 * 2 ^ ls.n ∧ ls.n ≤ maxTries
  ∧ (∀ p ∈ ls.sleeps, p.1 ≤ ls.state)
  ∧ stateSleeps ls.sleeps ls.state = (List.range ls.n).map (fun j => 5 * 2 ^ j)
  ∧ ∀ s, ∃ m, m ≤ maxTries ∧
      stateSleeps ls.sleeps s = (List.range m).map (fun j => 5 * 2 ^ j)

theorem goIter_backoffInv (env : Env) (i : Nat) (ls ls' : LoopSt)
    (h : goIter env i ls = StepOut.cont ls') (hinv : BackoffInv ls) :
    BackoffInv ls' := by
  obtain ⟨hd, hn, hb, hcur, hall⟩ := hinv
  by_cases hc : 6 ≤ ls.state ∨ env.ctxDone i = true
  · simp only [goIter] at h
    rw [if_pos hc] at h
    exact absurd h (by simp)
  · simp only [goIter] at h
    rw [if_neg hc] at h
    cases hbody : bodyErr env ls.state ls.n with
    | none =>
      rw [hbody] at h
      simp only [] at h
      injection h with h2
      subst h2
      refine ⟨rfl, Nat.zero_le _, ?_, ?_, hall⟩
      · intro p hp
        exact le_trans (hb p hp) (Nat.le_succ _)
      · show stateSleeps ls.sleeps (ls.state + 1) = (List.range 0).map (fun j => 5 * 2 ^ j)
        rw [stateSleeps_none ls.sleeps (ls.state + 1) (fun p hp => by
          have := hb p hp
          omega)]
        rfl
    | some e =>
      rw [hbody] at h
      simp only [] at h
      by_cases hn5 : ls.n = maxTries
      · rw [if_pos hn5] at h
        exact absurd h (by simp)
      · rw [if_neg hn5] at h
        by_cases hk : (awsReclass e).kind = ErrKind.Fatal ∨
            (awsReclass e).kind = ErrKind.Unavailable
        · rw [if_pos hk] at h
          exact absurd h (by simp)
        · rw [if_neg hk] at h
          injection h with h2
          subst h2
          have hn' : ls.n < 5 := by
            have h5 : maxTries = 5 := rfl
            rw [h5] at hn hn5
            omega
          refine ⟨?_, ?_, ?_, ?_, ?_⟩
          · show ls.d * 2 = 5 * 2 ^ (ls.n + 1)
            rw [hd, pow_succ]
            ring
          · show ls.n + 1 ≤ maxTries
            have h5 : maxTries = 5 := rfl
            omega
          · intro p hp
            rcases List.mem_append.mp hp with hp1 | hp2
            · exact hb p hp1
            · rcases List.mem_singleton.mp hp2 with rfl
              exact Nat.le_refl _
          · show stateSleeps (ls.sleeps ++ [(ls.state, ls.d)]) ls.state
              = (List.range (ls.n + 1)).map (fun j => 5 * 2 ^ j)
            rw [stateSleeps_append, hcur, stateSleeps_single_eq,
              List.range_succ, List.map_append, hd]
            simp
          · intro s
            by_cases hs : ls.state = s
            · subst hs
              refine ⟨ls.n + 1, by
                have h5 : maxTries = 5 := rfl
                omega, ?_⟩
              show stateSleeps (ls.sleeps ++ [(ls.state, ls.d)]) ls.state
                = (List.range (ls.n + 1)).map (fun j => 5 * 2 ^ j)
              rw [stateSleeps_append, hcur, stateSleeps_single_eq,
                List.range_succ, List.map_append, hd]
              simp
            · obtain ⟨m, hm, he⟩ := hall s
              refine ⟨m, hm, ?_⟩
              show stateSleeps (ls.sleeps ++ [(ls.state, ls.d)]) s
                = (List.range m).map (fun j => 5 * 2 ^ j)
              rw [stateSleeps_append, he, stateSleeps_single_ne ls.state ls.d s hs,
                List.append_nil]

theorem goTrace_backoffInv (env : Env) :
    ∀ (k : Nat) (ls : LoopSt), goTrace env k = StepOut.cont ls → BackoffInv ls := by
  intro k
  induction k with
  | zero =>
    intro ls h
    injection h with h2
    rw [← h2]
    exact ⟨rfl, by decide, by simp [goInit], rfl, fun s => ⟨0, by decide, rfl⟩⟩
  | succ k ih =>
    intro ls h
    rw [goTrace_succ] at h
    cases hmid : goTrace env k with
    | stop r sl =>
      rw [hmid] at h
      exact absurd h (by simp)
    | cont lsm =>
      rw [hmid] at h
      exact goIter_backoffInv env k lsm ls h (ih lsm hmid)

/-- Claim C6: at every point of a run of `Go`, the delay is `5 · 2^n`
seconds (initially 5 s, doubled after each recorded backoff sleep), the
retry counter is at most `maxTries = 5`, the sleeps recorded for the
current state are exactly `5·2^0, …, 5·2^(n−1)` — so the k-th backoff sleep
within one state lasts `5·2^(k−1)` seconds — every state records at most
`maxTries` sleeps, and a successful attempt advances the state with `n`
and `d` reset to `0` and 5 s. -/
theorem go_backoff_discipline (env : Env) (k : Nat) (ls : LoopSt)
    (h : goTrace env k = StepOut.cont ls) :
    ls.d = 5 * 2 ^ ls.n ∧ ls.n ≤ maxTries
    ∧ stateSleeps ls.sleeps ls.state = (List.range ls.n).map (fun j => 5 * 2 ^ j)
    ∧ (∀ s, ∃ m, m ≤ maxTries ∧
        stateSleeps ls.sleeps s = (List.range m).map (fun j => 5 * 2 ^ j))
    ∧ (ls.state < 6 → env.ctxDone k = false → bodyErr env ls.state ls.n = none →
        goIter env k ls = StepOut.cont ⟨ls.state + 1, 0, 5, none, ls.sleeps⟩) := by
  obtain ⟨hd, hn, hb, hcur, hall⟩ := goTrace_backoffInv env k ls h
  refine ⟨hd, hn, hcur, hall, ?_⟩
  intro hs hcd hbody
  have hnot : ¬ (6 ≤ ls.state ∨ env.ctxDone k = true) := by
    rintro (h6 | hdone)
    · omega
    · simp [hcd] at hdone
  simp only [goIter, hbody]
  rw [if_neg hnot]

def lsC6 : LoopSt := ⟨1, 4, 80, some plainErr, [(1, 5), (1, 10), (1, 20), (1, 40)]⟩

theorem go_backoff_discipline_witness :
    lsC6.d = 5 * 2 ^ lsC6.n ∧ lsC6.n ≤ maxTries
    ∧ stateSleeps lsC6.sleeps lsC6.state
      = (List.range lsC6.n).map (fun j => 5 * 2 ^ j) :=
  ⟨(go_backoff_discipline envC4 5 lsC6 (by decide)).1,
    (go_backoff_discipline envC4 5 lsC6 (by decide)).2.1,
    (go_backoff_discipline envC4 5 lsC6 (by decide)).2.2.1⟩
